import Mathlib

/-!
Verification of the retrieval subsystem of a small RAG chat server
(`src/server.js`): chunking policies, cosine-similarity ranking, index
lifecycle, and the query endpoint's error handling.  Each definition is a
shallow embedding of the corresponding JavaScript function; JS numbers are
modelled as real numbers, thrown errors as `Except` with the error message
as payload.
-/

namespace AwsBox

/-- The character class matched by JavaScript `\s` (and trimmed by
`String.prototype.trim`): ASCII whitespace, NBSP, and the Unicode
space separators / line terminators / BOM. -/
def isJsWs (c : Char) : Bool :=
  c = ' ' || c = '\t' || c = '\n' || c = '\r' || c = '\x0b' || c = '\x0c' ||
  c = '\u00A0' || c = '\u1680' || (0x2000 ≤ c.toNat && c.toNat ≤ 0x200A) ||
  c = '\u2028' || c = '\u2029' || c = '\u202F' || c = '\u205F' ||
  c = '\u3000' || c = '\uFEFF'

/-- Helper for `splitLines`: scan the characters, cutting at each `\n`,
consuming an immediately preceding `\r` with it (JS `text.split(/\r?\n/)`). -/
def splitLinesGo : List Char → List Char → List String
  | [], acc => [String.mk acc.reverse]
  | '\r' :: '\n' :: rest, acc => String.mk acc.reverse :: splitLinesGo rest []
  | '\n' :: rest, acc => String.mk acc.reverse :: splitLinesGo rest []
  | c :: rest, acc => splitLinesGo rest (c :: acc)

/-- JS `text.split(/\r?\n/)` from `chunkCsv` (server.js line 100). -/
def splitLines (s : String) : List String := splitLinesGo s.data []

/-- JS `String.prototype.trim`: drop leading and trailing `\s` characters. -/
def jsTrim (s : String) : String :=
  String.mk (((s.data.dropWhile isJsWs).reverse.dropWhile isJsWs).reverse)

/-- Remove every JS-whitespace character of a string (used to state
"reconstruction up to whitespace normalization"). -/
def stripWs (s : String) : String := String.mk (s.data.filter (fun c => !isJsWs c))

/-- Loop of `chunkCsv` (server.js lines 104-107): emit one labelled chunk per
batch of `s + 1` data lines.  `i` is the 0-based index of the first row of the
current batch, `total` the total number of data lines.  The structural `fuel`
argument only bounds the number of batches; every call supplies the list
length, which each batch (of ≥ 1 line) can never exhaust. -/
def chunkCsvGo (header : String) (total s : ℕ) : ℕ → List String → ℕ → List String
  | _, [], _ => []
  | 0, _ :: _, _ => []
  | fuel + 1, l :: ls, i =>
    ("CSV chunk (rows " ++ toString (i + 1) ++ "-" ++ toString (min (i + (s + 1)) total)
        ++ "):\n" ++ header ++ "\n" ++ String.intercalate "\n" ((l :: ls).take (s + 1)))
      :: chunkCsvGo header total s fuel ((l :: ls).drop (s + 1)) (i + (s + 1))

/-- `chunkCsv(text, chunkSize = 140)` (server.js lines 99-109): first line is
the header, remaining lines are grouped into `chunkSize`-row batches, each
prefixed with a row-range label and the header.  (With `chunkSize = 0` the JS
loop would not terminate; that case is modelled as `[]` and never used: the
index builder calls with 120 and the default is 140.) -/
def chunkCsv (text : String) (chunkSize : ℕ := 140) : List String :=
  let lines := splitLines text
  let header := lines.headD ""
  let dataLines := lines.drop 1
  match chunkSize with
  | 0 => []
  | s + 1 => chunkCsvGo header dataLines.length s dataLines.length dataLines 0

/-- Length of the separator matched by the regex `\n\s*\n+` at the current
position, given the characters `l` that follow the initial `\n`: the maximal
whitespace prefix of `l` is scanned, and the match extends through its last
`\n` (greedy `\s*` with backtracking into `\n+`).  `none` when that prefix
holds no `\n`, i.e. the regex does not match here. -/
def sepLen (l : List Char) : Option ℕ :=
  let ws := l.takeWhile isJsWs
  match ws.reverse.findIdx? (fun c => c = '\n') with
  | none => none
  | some j => some (ws.length - j)

/-- JS `text.split(/\n\s*\n+/)` from `chunkText` (server.js line 112):
leftmost-first scan, cutting at each regex match.  The structural `fuel`
argument only bounds the number of consumed characters; every call supplies
the list length, which the scan can never exhaust. -/
def splitParasGo : ℕ → List Char → List Char → List String
  | _, [], acc => [String.mk acc.reverse]
  | 0, _ :: _, acc => [String.mk acc.reverse]
  | fuel + 1, c :: rest, acc =>
    if c = '\n' then
      match sepLen rest with
      | some k => String.mk acc.reverse :: splitParasGo fuel (rest.drop k) []
      | none => splitParasGo fuel rest (c :: acc)
    else splitParasGo fuel rest (c :: acc)

def splitParas (s : String) : List String := splitParasGo s.data.length s.data []

/-- Hard-split loop of `chunkText` (server.js lines 118-120): consecutive
windows of `s + 1` characters, with a structural fuel argument as above. -/
def windowsGo (s : ℕ) : ℕ → List Char → List String
  | _, [] => []
  | 0, _ :: _ => []
  | fuel + 1, c :: rest =>
    String.mk ((c :: rest).take (s + 1)) :: windowsGo s fuel ((c :: rest).drop (s + 1))

/-- `p.slice(i, i + maxLen)` windows for an oversized paragraph.  (With
`maxLen = 0` the JS loop would not terminate; modelled as `[]`, never used.) -/
def windows (p : String) (maxLen : ℕ) : List String :=
  match maxLen with
  | 0 => []
  | s + 1 => windowsGo s p.data.length p.data

/-- Paragraph stage of `chunkText` (server.js line 112):
`text.split(/\n\s*\n+/).map((p) => p.trim()).filter(Boolean)`. -/
def chunkTextParts (text : String) : List String :=
  ((splitParas text).map jsTrim).filter (fun p => p ≠ "")

/-- `chunkText(text, maxLen = 1200)` (server.js lines 111-124). -/
def chunkText (text : String) (maxLen : ℕ := 1200) : List String :=
  (chunkTextParts text).flatMap (fun p => if p.length ≤ maxLen then [p] else windows p maxLen)

/-! ### Cosine similarity (server.js lines 85-97) -/

/-- Accumulator loop of `cosineSimilarity` (server.js lines 87-94): fold over
the paired common prefix, accumulating `(dot, na, nb)`. -/
noncomputable def cosAcc (l : List (ℝ × ℝ)) : ℝ × ℝ × ℝ :=
  l.foldl (fun acc p => (acc.1 + p.1 * p.2, acc.2.1 + p.1 * p.1, acc.2.2 + p.2 * p.2)) (0, 0, 0)

/-- `cosineSimilarity(a, b)` (server.js lines 85-97): loop over the common
prefix (`List.zip` truncates to the shorter length, as `i < min(a.length,
b.length)` does), return 0 when either accumulated norm is zero, else the
normalized dot product. -/
noncomputable def cosineSimilarity (a b : List ℝ) : ℝ :=
  let s := cosAcc (a.zip b)
  if s.2.1 = 0 ∨ s.2.2 = 0 then 0 else s.1 / (Real.sqrt s.2.1 * Real.sqrt s.2.2)

/-! ### Data model and server state -/

/-- A corpus item before embedding (server.js lines 131-134). -/
structure CorpusItem where
  source : String
  id : String
  text : String

/-- An index entry: a corpus item plus its embedding vector
(server.js line 138, `{ ...item, vector }`). -/
structure IndexEntry where
  source : String
  id : String
  text : String
  vector : List ℝ

/-- A scored chunk, `{ ...item, score }` (server.js lines 157-160). -/
structure ScoredChunk where
  source : String
  id : String
  text : String
  vector : List ℝ
  score : ℝ

/-- Module-level mutable state of the server (server.js lines 33-35). -/
structure ServerState where
  embeddingIndex : List IndexEntry
  embeddingIndexReady : Bool
  embeddingIndexError : Option String

/-- `TOP_K` (server.js line 24; default 5). -/
def TOP_K : ℕ := 5

/-! ### Ranker and retrieval facade (server.js lines 151-167) -/

/-- Score one entry against the query vector (server.js lines 157-160). -/
noncomputable def scoreEntry (queryVec : List ℝ) (e : IndexEntry) : ScoredChunk :=
  ⟨e.source, e.id, e.text, e.vector, cosineSimilarity queryVec e.vector⟩

/-- The comparator `(a, b) => b.score - a.score` passed to
`Array.prototype.sort` (server.js line 161): `a` may be placed before `b`
exactly when `b.score - a.score ≤ 0`. -/
noncomputable def scoreLe (a b : ScoredChunk) : Bool := decide (b.score ≤ a.score)

/-- The ranking stage of `retrieveContext` (server.js lines 156-162): score
every index entry, sort by descending score (JS `sort` is stable, modelled by
the stable `mergeSort`), and keep the first `k` (`slice(0, k)`). -/
noncomputable def rank (queryVec : List ℝ) (index : List IndexEntry) (k : ℕ) : List ScoredChunk :=
  ((index.map (scoreEntry queryVec)).mergeSort scoreLe).take k

/-- Context assembly (server.js lines 163-165). -/
def contextText (scored : List ScoredChunk) : String :=
  String.intercalate "\n\n"
    (scored.enum.map (fun p => "Chunk " ++ toString (p.1 + 1) ++ " [" ++ p.2.source ++ "]:\n" ++ p.2.text))

/-- `retrieveContext(prompt, k = TOP_K)` (server.js lines 151-167): throw the
recorded build error (or a fresh "Embedding index not ready") unless the index
is ready and non-empty; otherwise embed the truncated prompt and return the
serialized top-`k` context.  The external embedding capability is passed in as
`embed`; a thrown JS error is modelled as `Except.error` of its message. -/
noncomputable def retrieveContext (embed : String → Except String (List ℝ))
    (st : ServerState) (prompt : String) (k : ℕ := TOP_K) : Except String String :=
  if !st.embeddingIndexReady || st.embeddingIndex.isEmpty then
    .error (st.embeddingIndexError.getD "Embedding index not ready")
  else do
    let queryVec ← embed (prompt.take 4000)
    pure (contextText (rank queryVec st.embeddingIndex k))

/-! ### Index builder (server.js lines 126-149) -/

/-- Corpus assembly (server.js lines 131-134): CSV chunks then PDF chunks,
each tagged with its source and positional id. -/
def mkCorpus (csvChunks pdfChunks : List String) : List CorpusItem :=
  csvChunks.enum.map (fun p => ⟨"csv", "csv-" ++ toString p.1, p.2⟩) ++
  pdfChunks.enum.map (fun p => ⟨"pdf", "pdf-" ++ toString p.1, p.2⟩)

/-- The embedding loop (server.js lines 135-139): embed each corpus item's
text truncated to 2000 characters; the first failure aborts the whole loop
(`Except`'s `mapM` is fail-fast, as the sequential `await` loop is). -/
def buildVectors (embed : String → Except String (List ℝ))
    (corpus : List CorpusItem) : Except String (List IndexEntry) :=
  corpus.mapM (fun item => (embed (item.text.take 2000)).map
    (fun v => ⟨item.source, item.id, item.text, v⟩))

/-- The fallible stages of `buildEmbeddingIndex` (server.js lines 128-139):
fetch both documents, chunk them (CSV with batch size 120, free text with
max length 900), and embed the corpus. -/
def buildAttempt (loadCsv loadPdf : Except String String)
    (embed : String → Except String (List ℝ)) : Except String (List IndexEntry) := do
  let csv ← loadCsv
  let pdfRaw ← loadPdf
  buildVectors embed (mkCorpus (chunkCsv csv 120) (chunkText pdfRaw 900))

/-- `buildEmbeddingIndex()` (server.js lines 126-149): on success overwrite
the index, set the ready flag and clear the error; on any failure record the
error and clear readiness.  The `embeddingIndex` global is only assigned in
the success path, so a failed attempt leaves the previous index in place. -/
def buildEmbeddingIndex (loadCsv loadPdf : Except String String)
    (embed : String → Except String (List ℝ)) (st : ServerState) : ServerState :=
  match buildAttempt loadCsv loadPdf embed with
  | .ok vectors =>
    { embeddingIndex := vectors, embeddingIndexReady := true, embeddingIndexError := none }
  | .error e => { st with embeddingIndexReady := false, embeddingIndexError := some e }

/-! ### The `/chat` endpoint (server.js lines 241-271) -/

/-- Parsed request body of `POST /chat`; each field may be absent. -/
structure ChatBody where
  prompt : Option String
  context : Option String

/-- Outcome of the `/chat` handler: HTTP 400, 200, or 500 with detail. -/
inductive ChatResult where
  | badRequest (error : String)
  | ok (answer : String)
  | serverError (error detail : String)
deriving DecidableEq

/-- The instruction template of `/chat` (server.js lines 256-261), a template
literal around the user prompt, `.trim()`ed. -/
def concisePrompt (prompt : String) : String :=
  jsTrim ("\nAnswer concisely (target <= 80 words). If the files do not contain the answer, say that. Cite specific values or sections only as needed.\n\nUser question:\n"
    ++ prompt ++ "\n")

/-- `[retrieval, context].filter(Boolean).join("\n\n")` (server.js line 255):
an absent `context` behaves like the empty string, and empty strings are
filtered out. -/
def combinedContext (retrieval : String) (context : Option String) : String :=
  String.intercalate "\n\n" ([retrieval, context.getD ""].filter (fun s => s ≠ ""))

/-- `app.post("/chat")` (server.js lines 241-271): reject a missing or
whitespace-only prompt with a 400; otherwise attempt retrieval, swallowing
any retrieval error (the inner `try/catch` only logs a warning and leaves
`retrieval = ""`); then invoke the generation capability, whose failure is
surfaced as a 500 with the error detail. -/
noncomputable def chatHandler (embed : String → Except String (List ℝ))
    (callBedrock : String → String → Except String String)
    (st : ServerState) (body : Option ChatBody) : ChatResult :=
  match body.bind (fun b => b.prompt) with
  | none => .badRequest "Prompt is required"
  | some prompt =>
    if jsTrim prompt = "" then .badRequest "Prompt is required"
    else
      let retrieval :=
        match retrieveContext embed st prompt TOP_K with
        | .ok r => r
        | .error _ => ""
      match callBedrock (concisePrompt prompt)
          (combinedContext retrieval (body.bind (fun b => b.context))) with
      | .ok answer => .ok answer
      | .error e => .serverError "Bedrock call failed" e

/-! ### Claims about the facade, builder, and endpoint -/

/-- C2: whenever the index state is not ready (still building or failed),
`retrieveContext` fails with the not-ready error, carrying the last build
error if one exists, and never returns a (partial) context string. -/
theorem retrieveContext_not_ready (embed : String → Except String (List ℝ))
    (st : ServerState) (prompt : String) (k : ℕ)
    (h : st.embeddingIndexReady = false) :
    retrieveContext embed st prompt k =
      .error (st.embeddingIndexError.getD "Embedding index not ready") := by
  simp [retrieveContext, h]

theorem retrieveContext_not_ready_witness :
    retrieveContext (fun _ => .error "unused") ⟨[], false, some "boom"⟩ "q" 5 = .error "boom" :=
  retrieveContext_not_ready (fun _ => .error "unused") ⟨[], false, some "boom"⟩ "q" 5 rfl

/-- C3: if any stage of the build fails (document fetch, chunking, or a
per-chunk embedding call), the state records the captured error and drops
readiness, while the previous index is left in place unchanged — the index is
never partially populated from the failed attempt. -/
theorem buildEmbeddingIndex_failure (loadCsv loadPdf : Except String String)
    (embed : String → Except String (List ℝ)) (st : ServerState) (e : String)
    (h : buildAttempt loadCsv loadPdf embed = .error e) :
    (buildEmbeddingIndex loadCsv loadPdf embed st).embeddingIndex = st.embeddingIndex ∧
    (buildEmbeddingIndex loadCsv loadPdf embed st).embeddingIndexReady = false ∧
    (buildEmbeddingIndex loadCsv loadPdf embed st).embeddingIndexError = some e := by
  simp [buildEmbeddingIndex, h]

theorem buildEmbeddingIndex_failure_witness :
    (buildEmbeddingIndex (.error "fetch failed") (.ok "") (fun _ => .ok [])
        ⟨[⟨"csv", "csv-0", "t", []⟩], true, none⟩).embeddingIndex = [⟨"csv", "csv-0", "t", []⟩] ∧
    (buildEmbeddingIndex (.error "fetch failed") (.ok "") (fun _ => .ok [])
        ⟨[⟨"csv", "csv-0", "t", []⟩], true, none⟩).embeddingIndexReady = false ∧
    (buildEmbeddingIndex (.error "fetch failed") (.ok "") (fun _ => .ok [])
        ⟨[⟨"csv", "csv-0", "t", []⟩], true, none⟩).embeddingIndexError = some "fetch failed" :=
  buildEmbeddingIndex_failure _ _ _ _ _ rfl

/-- C10: a `/chat` request whose prompt is absent, empty, or whitespace-only
is answered with the 400 "Prompt is required" error, whatever the embedding
and generation capabilities and the index state are — so before any retrieval
or generation call is attempted. -/
theorem chat_rejects_blank_prompt (embed : String → Except String (List ℝ))
    (cb : String → String → Except String String) (st : ServerState) (body : Option ChatBody)
    (h : body.bind (fun b => b.prompt) = none ∨
      ∃ p, body.bind (fun b => b.prompt) = some p ∧ jsTrim p = "") :
    chatHandler embed cb st body = .badRequest "Prompt is required" := by
  rcases h with h | ⟨p, hp, ht⟩
  · simp [chatHandler, h]
  · simp [chatHandler, hp, ht]

theorem chat_rejects_blank_prompt_witness :
    chatHandler (fun _ => .error "e") (fun _ _ => .ok "a") ⟨[], false, none⟩
      (some ⟨some "   ", none⟩) = .badRequest "Prompt is required" :=
  chat_rejects_blank_prompt _ _ _ _ (Or.inr ⟨"   ", rfl, by decide⟩)

/-- A ready server state holding one embedded chunk, used to exercise the
`/chat` handler when retrieval is possible but the query embedding fails. -/
noncomputable def chatReadySt : ServerState :=
  ⟨[⟨"csv", "csv-0", "text", [(1 : ℝ)]⟩], true, none⟩

/-- C4, counterexample: with a ready index, an embedding failure raised while
embedding the query ("Embedding failure") does NOT propagate: the inner catch
swallows every retrieval error, the request proceeds without retrieved
context, and the response is the generated answer, not a request-level
failure. -/
theorem chat_embedding_failure_swallowed_cex :
    chatHandler (fun _ => .error "Embedding failure") (fun _ _ => .ok "generated answer")
      chatReadySt (some ⟨some "q", none⟩) = .ok "generated answer" := rfl

/-- C4, amended: every retrieval failure — IndexNotReady and a query-embedding
failure alike — is swallowed by the query endpoint, which proceeds with empty
retrieved context; only the generation call's outcome decides the response
(its failure is surfaced as a request-level failure with the detail kept). -/
theorem chat_swallows_retrieval_failure (embed : String → Except String (List ℝ))
    (cb : String → String → Except String String) (st : ServerState)
    (p : String) (ctx : Option String)
    (hp : jsTrim p ≠ "")
    (hr : ∃ e, retrieveContext embed st p TOP_K = .error e) :
    chatHandler embed cb st (some ⟨some p, ctx⟩) =
      match cb (concisePrompt p) (combinedContext "" ctx) with
      | .ok a => .ok a
      | .error e => .serverError "Bedrock call failed" e := by
  obtain ⟨e, he⟩ := hr
  simp [chatHandler, hp, he]

theorem chat_swallows_retrieval_failure_witness :
    chatHandler (fun _ => .error "Embedding failure") (fun _ _ => .error "gen down")
      chatReadySt (some ⟨some "q", none⟩) = .serverError "Bedrock call failed" "gen down" :=
  chat_swallows_retrieval_failure _ _ _ _ _ (by decide) ⟨"Embedding failure", rfl⟩

/-- C1: the ranker returns `min k (index size)` scored chunks, scores are
non-increasing across the returned sequence, and when the index holds fewer
than `k` entries all of them are returned (the result is then a permutation
of the whole scored index). -/
theorem rank_spec (q : List ℝ) (idx : List IndexEntry) (k : ℕ) :
    (rank q idx k).length = min k idx.length ∧
    (rank q idx k).Pairwise (fun a b => b.score ≤ a.score) ∧
    (idx.length ≤ k → (rank q idx k).Perm (idx.map (scoreEntry q))) := by
  refine ⟨?_, ?_, ?_⟩
  · simp [rank]
  · have hp : ((idx.map (scoreEntry q)).mergeSort scoreLe).Pairwise (fun a b => scoreLe a b) := by
      apply List.sorted_mergeSort
      · intro a b c hab hbc
        simp only [scoreLe, decide_eq_true_eq] at *
        exact hbc.trans hab
      · intro a b
        simp only [scoreLe, Bool.or_eq_true, decide_eq_true_eq]
        exact le_total b.score a.score
    have hp' : ((idx.map (scoreEntry q)).mergeSort scoreLe).Pairwise
        (fun a b => b.score ≤ a.score) :=
      hp.imp (fun h => by simpa [scoreLe] using h)
    exact hp'.sublist (List.take_sublist _ _)
  · intro h
    have hlen : ((idx.map (scoreEntry q)).mergeSort scoreLe).length ≤ k := by simpa using h
    rw [rank, List.take_of_length_le hlen]
    exact List.mergeSort_perm _ _

/-- A one-entry index used to instantiate `rank_spec`. -/
noncomputable def rankEntry : IndexEntry := ⟨"csv", "csv-0", "t", [(1 : ℝ)]⟩

theorem rank_spec_witness :
    (rank [] [rankEntry] 5).length = min 5 1 ∧
    (rank [] [rankEntry] 5).Pairwise (fun a b => b.score ≤ a.score) ∧
    (rank [] [rankEntry] 5).Perm ([rankEntry].map (scoreEntry [])) :=
  ⟨(rank_spec [] [rankEntry] 5).1, (rank_spec [] [rankEntry] 5).2.1,
    (rank_spec [] [rankEntry] 5).2.2 (by decide)⟩

/-! ### Claims about cosine similarity -/

lemma cosAcc_foldl (l : List (ℝ × ℝ)) : ∀ init : ℝ × ℝ × ℝ,
    l.foldl (fun acc p => (acc.1 + p.1 * p.2, acc.2.1 + p.1 * p.1, acc.2.2 + p.2 * p.2)) init
      = (init.1 + (l.map (fun p => p.1 * p.2)).sum,
         init.2.1 + (l.map (fun p => p.1 * p.1)).sum,
         init.2.2 + (l.map (fun p => p.2 * p.2)).sum) := by
  induction l with
  | nil => intro init; simp
  | cons hd tl ih =>
    intro init
    simp only [List.foldl_cons, List.map_cons, List.sum_cons, ih, Prod.mk.injEq]
    refine ⟨by ring, by ring, by ring⟩

lemma cosAcc_eq (l : List (ℝ × ℝ)) :
    cosAcc l = ((l.map (fun p => p.1 * p.2)).sum,
      (l.map (fun p => p.1 * p.1)).sum, (l.map (fun p => p.2 * p.2)).sum) := by
  simpa using cosAcc_foldl l (0, 0, 0)

lemma sum_mul_self_nonneg (l : List (ℝ × ℝ)) (f : ℝ × ℝ → ℝ) :
    0 ≤ (l.map (fun p => f p * f p)).sum := by
  apply List.sum_nonneg
  intro x hx
  obtain ⟨p, -, rfl⟩ := List.mem_map.mp hx
  exact mul_self_nonneg _

/-- Cauchy-Schwarz for a list of real pairs, by induction. -/
lemma list_cauchy (l : List (ℝ × ℝ)) :
    ((l.map (fun p => p.1 * p.2)).sum) ^ 2 ≤
      (l.map (fun p => p.1 * p.1)).sum * (l.map (fun p => p.2 * p.2)).sum := by
  induction l with
  | nil => simp
  | cons hd tl ih =>
    simp only [List.map_cons, List.sum_cons]
    have hA : 0 ≤ (tl.map (fun p => p.1 * p.1)).sum := sum_mul_self_nonneg tl _
    have hB : 0 ≤ (tl.map (fun p => p.2 * p.2)).sum := sum_mul_self_nonneg tl _
    rcases eq_or_lt_of_le hB with hB0 | hBpos
    · have hd0 : (tl.map (fun p => p.1 * p.2)).sum = 0 := by
        nlinarith [sq_nonneg ((tl.map (fun p => p.1 * p.2)).sum)]
      rw [hd0, ← hB0]
      nlinarith [mul_nonneg hA (sq_nonneg hd.2)]
    · nlinarith [sq_nonneg (hd.1 * (tl.map (fun p => p.2 * p.2)).sum
          - hd.2 * (tl.map (fun p => p.1 * p.2)).sum),
        mul_nonneg (by positivity : (0:ℝ) ≤ hd.2 ^ 2 + (tl.map (fun p => p.2 * p.2)).sum)
          (sub_nonneg.mpr ih),
        hBpos, hA]

/-- The similarity value always lies in `[-1, 1]`. -/
lemma cosineSimilarity_mem_Icc (a b : List ℝ) :
    -1 ≤ cosineSimilarity a b ∧ cosineSimilarity a b ≤ 1 := by
  unfold cosineSimilarity
  by_cases h : (cosAcc (a.zip b)).2.1 = 0 ∨ (cosAcc (a.zip b)).2.2 = 0
  · rw [if_pos h]; norm_num
  · rw [if_neg h]
    push_neg at h
    obtain ⟨hA0, hB0⟩ := h
    set l := a.zip b with hl
    have hAe : (cosAcc l).2.1 = (l.map (fun p => p.1 * p.1)).sum := by rw [cosAcc_eq]
    have hBe : (cosAcc l).2.2 = (l.map (fun p => p.2 * p.2)).sum := by rw [cosAcc_eq]
    have hDe : (cosAcc l).1 = (l.map (fun p => p.1 * p.2)).sum := by rw [cosAcc_eq]
    have hA : 0 < (cosAcc l).2.1 :=
      lt_of_le_of_ne (hAe ▸ sum_mul_self_nonneg l _) (Ne.symm hA0)
    have hB : 0 < (cosAcc l).2.2 :=
      lt_of_le_of_ne (hBe ▸ sum_mul_self_nonneg l _) (Ne.symm hB0)
    have hs : 0 < Real.sqrt (cosAcc l).2.1 * Real.sqrt (cosAcc l).2.2 :=
      mul_pos (Real.sqrt_pos.mpr hA) (Real.sqrt_pos.mpr hB)
    have hcs : ((cosAcc l).1) ^ 2 ≤ (cosAcc l).2.1 * (cosAcc l).2.2 := by
      rw [hAe, hBe, hDe]; exact list_cauchy l
    have habs : |(cosAcc l).1| ≤ Real.sqrt (cosAcc l).2.1 * Real.sqrt (cosAcc l).2.2 := by
      rw [← Real.sqrt_sq_eq_abs, ← Real.sqrt_mul hA.le]
      exact Real.sqrt_le_sqrt hcs
    rw [abs_le] at habs
    constructor
    · rw [le_div_iff₀ hs]; nlinarith [habs.1]
    · rw [div_le_one hs]; exact habs.2

/-- The similarity is symmetric in its two arguments. -/
lemma cosineSimilarity_comm (a b : List ℝ) :
    cosineSimilarity a b = cosineSimilarity b a := by
  have hz : b.zip a = (a.zip b).map Prod.swap := (List.zip_swap a b).symm
  have hf1 : ((fun p : ℝ × ℝ => p.1 * p.2) ∘ Prod.swap) = (fun p : ℝ × ℝ => p.1 * p.2) := by
    funext p; simp [mul_comm]
  have hf2 : ((fun p : ℝ × ℝ => p.1 * p.1) ∘ Prod.swap) = (fun p : ℝ × ℝ => p.2 * p.2) := by
    funext p; rfl
  have hf3 : ((fun p : ℝ × ℝ => p.2 * p.2) ∘ Prod.swap) = (fun p : ℝ × ℝ => p.1 * p.1) := by
    funext p; rfl
  have h1 : ((b.zip a).map (fun p => p.1 * p.2)).sum
      = ((a.zip b).map (fun p => p.1 * p.2)).sum := by
    rw [hz, List.map_map, hf1]
  have h2 : ((b.zip a).map (fun p => p.1 * p.1)).sum
      = ((a.zip b).map (fun p => p.2 * p.2)).sum := by
    rw [hz, List.map_map, hf2]
  have h3 : ((b.zip a).map (fun p => p.2 * p.2)).sum
      = ((a.zip b).map (fun p => p.1 * p.1)).sum := by
    rw [hz, List.map_map, hf3]
  have e1 : (cosAcc (b.zip a)).1 = (cosAcc (a.zip b)).1 := by
    rw [cosAcc_eq, cosAcc_eq]; exact h1
  have e2 : (cosAcc (b.zip a)).2.1 = (cosAcc (a.zip b)).2.2 := by
    rw [cosAcc_eq, cosAcc_eq]; exact h2
  have e3 : (cosAcc (b.zip a)).2.2 = (cosAcc (a.zip b)).2.1 := by
    rw [cosAcc_eq, cosAcc_eq]; exact h3
  simp only [cosineSimilarity]
  rw [e1, e2, e3]
  exact if_congr or_comm rfl (by rw [mul_comm])

/-- C8: for vectors of equal nonzero length, `cosineSimilarity` is symmetric
and its value lies in `[-1, 1]`. -/
theorem cosineSimilarity_symm_bounded (a b : List ℝ)
    (h1 : a.length = b.length) (h2 : a.length ≠ 0) :
    cosineSimilarity a b = cosineSimilarity b a ∧
    -1 ≤ cosineSimilarity a b ∧ cosineSimilarity a b ≤ 1 :=
  ⟨cosineSimilarity_comm a b,
    (cosineSimilarity_mem_Icc a b).1, (cosineSimilarity_mem_Icc a b).2⟩

theorem cosineSimilarity_symm_bounded_witness :
    cosineSimilarity [(1 : ℝ)] [(2 : ℝ)] = cosineSimilarity [(2 : ℝ)] [(1 : ℝ)] ∧
    -1 ≤ cosineSimilarity [(1 : ℝ)] [(2 : ℝ)] ∧ cosineSimilarity [(1 : ℝ)] [(2 : ℝ)] ≤ 1 :=
  cosineSimilarity_symm_bounded _ _ (by decide) (by decide)

/-- C9: a degenerate vector on either side makes the similarity exactly 0 —
in particular against a zero vector of any length — because the zero-norm
guard fires; and in the branch that divides, the denominator is nonzero, so
no division by zero is ever performed. -/
theorem cosineSimilarity_zero_norm :
    (∀ (a : List ℝ) (n : ℕ), cosineSimilarity a (List.replicate n 0) = 0) ∧
    (∀ a b : List ℝ,
      (cosAcc (a.zip b)).2.1 = 0 ∨ (cosAcc (a.zip b)).2.2 = 0 → cosineSimilarity a b = 0) ∧
    (∀ a b : List ℝ, (cosAcc (a.zip b)).2.1 ≠ 0 → (cosAcc (a.zip b)).2.2 ≠ 0 →
      Real.sqrt (cosAcc (a.zip b)).2.1 * Real.sqrt (cosAcc (a.zip b)).2.2 ≠ 0) := by
  have hzero : ∀ a b : List ℝ,
      (cosAcc (a.zip b)).2.1 = 0 ∨ (cosAcc (a.zip b)).2.2 = 0 → cosineSimilarity a b = 0 := by
    intro a b h
    simp only [cosineSimilarity]
    rw [if_pos h]
  refine ⟨?_, hzero, ?_⟩
  · intro a n
    apply hzero
    right
    rw [cosAcc_eq]
    apply List.sum_eq_zero
    intro x hx
    obtain ⟨p, hp, rfl⟩ := List.mem_map.mp hx
    have : p.2 ∈ List.replicate n (0 : ℝ) := (List.of_mem_zip hp).2
    rw [(List.mem_replicate.mp this).2]
    ring
  · intro a b hA0 hB0
    have hA : 0 < (cosAcc (a.zip b)).2.1 := by
      rw [cosAcc_eq] at hA0 ⊢
      exact lt_of_le_of_ne (sum_mul_self_nonneg _ _) (Ne.symm hA0)
    have hB : 0 < (cosAcc (a.zip b)).2.2 := by
      rw [cosAcc_eq] at hB0 ⊢
      exact lt_of_le_of_ne (sum_mul_self_nonneg _ _) (Ne.symm hB0)
    exact ne_of_gt (mul_pos (Real.sqrt_pos.mpr hA) (Real.sqrt_pos.mpr hB))

theorem cosineSimilarity_zero_norm_witness :
    cosineSimilarity [(1 : ℝ)] [(0 : ℝ)] = 0 :=
  cosineSimilarity_zero_norm.2.1 [(1 : ℝ)] [(0 : ℝ)] (Or.inr (by norm_num [cosAcc]))

/-! ### Claims about the chunkers -/

/-- `pre.data.isPrefixOf s.data`: the string `s` starts with `pre`. -/
def startsWithStr (s pre : String) : Bool := pre.data.isPrefixOf s.data

/-- A tabular text with header `colA,colB` and `n` data rows `1`, `2`, ... -/
def csvText (n : ℕ) : String :=
  String.intercalate "\n" ("colA,colB" :: (List.range n).map (fun j => toString (j + 1)))

set_option maxRecDepth 200000 in
/-- C5, counterexample: called without an explicit size — i.e. at its default —
`chunkCsv` puts a header plus 130 data rows into a SINGLE batch labelled
`rows 1-130`, because its default batch size is 140, not 120 (the builder
passes 120 explicitly). Under the claimed default of 120 this input would
yield two chunks (`rows 1-120` and `rows 121-130`). -/
theorem chunkCsv_default_cex :
    (chunkCsv (csvText 130)).length = 1 ∧
    startsWithStr ((chunkCsv (csvText 130)).getD 0 "") "CSV chunk (rows 1-130):" = true :=
  ⟨by decide, by decide⟩

set_option maxRecDepth 1000000 in
/-- C5, amended: the chunker's own default batch size is 140 and the index
builder invokes it with batch size 120; with size 120, a header plus 250 data
rows yields exactly 3 chunks, each beginning with the correct row-range label
followed by the header line (rows 1-120, 121-240, 241-250). -/
theorem chunkCsv_batches_scenario :
    (∀ text : String, chunkCsv text = chunkCsv text 140) ∧
    (chunkCsv (csvText 250) 120).length = 3 ∧
    startsWithStr ((chunkCsv (csvText 250) 120).getD 0 "")
      "CSV chunk (rows 1-120):\ncolA,colB\n" = true ∧
    startsWithStr ((chunkCsv (csvText 250) 120).getD 1 "")
      "CSV chunk (rows 121-240):\ncolA,colB\n" = true ∧
    startsWithStr ((chunkCsv (csvText 250) 120).getD 2 "")
      "CSV chunk (rows 241-250):\ncolA,colB\n" = true :=
  ⟨fun _ => rfl, by decide, by decide, by decide, by decide⟩

lemma data_mk (l : List Char) : (String.mk l).data = l := rfl

lemma data_empty : ("" : String).data = [] := rfl

lemma foldl_append_data (xs : List String) : ∀ init : String,
    (xs.foldl (fun r s => r ++ s) init).data = init.data ++ (xs.map String.data).flatten := by
  induction xs with
  | nil => intro init; simp
  | cons x r ih =>
    intro init
    simp only [List.foldl_cons, ih, String.data_append, List.map_cons, List.flatten_cons,
      List.append_assoc]

lemma join_data (xs : List String) : (String.join xs).data = (xs.map String.data).flatten :=
  foldl_append_data xs ""

lemma windowsGo_nil (s fuel : ℕ) : windowsGo s fuel [] = [] := by
  cases fuel <;> rfl

lemma windowsGo_cons (s fuel : ℕ) (l : List Char) (h : l ≠ []) (hf : fuel ≠ 0) :
    windowsGo s fuel l = String.mk (l.take (s + 1)) :: windowsGo s (fuel - 1) (l.drop (s + 1)) := by
  obtain ⟨f, rfl⟩ := Nat.exists_eq_succ_of_ne_zero hf
  cases l with
  | nil => exact absurd rfl h
  | cons c r => rfl

lemma windowsGo_flatten (s : ℕ) : ∀ (fuel : ℕ) (l : List Char), l.length ≤ fuel →
    ((windowsGo s fuel l).map String.data).flatten = l := by
  intro fuel
  induction fuel with
  | zero =>
    intro l h
    have hl : l = [] := List.eq_nil_of_length_eq_zero (Nat.le_zero.mp h)
    subst hl
    simp [windowsGo_nil]
  | succ n ih =>
    intro l h
    cases l with
    | nil => simp [windowsGo_nil]
    | cons c r =>
      rw [windowsGo_cons s (n + 1) _ (by simp) (by omega)]
      simp only [List.map_cons, List.flatten_cons, data_mk, Nat.add_sub_cancel]
      rw [ih ((c :: r).drop (s + 1))
        (by simp only [List.length_drop, List.length_cons] at h ⊢; omega)]
      exact List.take_append_drop _ _

/-- Concatenating the hard-split windows of an oversized unit reconstructs it
exactly (no overlap, nothing dropped). -/
lemma windows_flatten (p : String) (maxLen : ℕ) (h : 0 < maxLen) :
    ((windows p maxLen).map String.data).flatten = p.data := by
  match maxLen, h with
  | s + 1, _ => exact windowsGo_flatten s p.data.length p.data le_rfl

/-- C6: whenever the paragraph stage of `chunkText` yields a single unit `p`
of 2500 characters, splitting with maximum length 900 produces exactly 3
chunks of lengths 900, 900, 700 whose in-order concatenation is `p`. -/
theorem chunkText_hard_split (p : String)
    (hparts : chunkTextParts p = [p]) (hlen : p.length = 2500) :
    (chunkText p 900).map String.length = [900, 900, 700] ∧
    String.join (chunkText p 900) = p := by
  have hld : p.data.length = 2500 := hlen
  have hct : chunkText p 900 = windows p 900 := by
    simp only [chunkText, hparts, List.flatMap_cons, List.flatMap_nil, List.append_nil]
    rw [if_neg (by omega)]
  have hne : p.data ≠ [] := by
    intro hnil
    rw [hnil] at hld
    simp at hld
  have hne1 : p.data.drop 900 ≠ [] := by
    intro hnil
    have := congrArg List.length hnil
    simp only [List.length_drop, List.length_nil, hld] at this
    omega
  have hne2 : ∀ l : List Char, l = p.data.drop 900 ∨ l = p.data.drop 1800 →
      l ≠ [] := by
    rintro l (rfl | rfl) hnil <;>
    · have := congrArg List.length hnil
      simp only [List.length_drop, List.length_nil, hld] at this
      omega
  have hd3 : p.data.drop 2700 = [] :=
    List.eq_nil_of_length_eq_zero (by simp only [List.length_drop, hld])
  have hw : windows p 900 = [String.mk (p.data.take 900),
      String.mk ((p.data.drop 900).take 900), String.mk ((p.data.drop 1800).take 900)] := by
    show windowsGo 899 p.data.length p.data = _
    rw [hld]
    rw [windowsGo_cons 899 2500 p.data hne (by omega)]
    rw [windowsGo_cons 899 (2500 - 1) _
      (by intro hnil; exact hne1 (by simpa using hnil)) (by omega)]
    rw [windowsGo_cons 899 (2500 - 1 - 1) _
      (by intro hnil; exact hne2 _ (Or.inr rfl) (by simpa [List.drop_drop] using hnil))
      (by omega)]
    simp [List.drop_drop, hd3, windowsGo_nil]
  constructor
  · rw [hct, hw]
    simp [List.length_take, List.length_drop, hld]
  · apply String.ext
    rw [hct, join_data, hw]
    simp only [List.map_cons, List.map_nil, List.flatten_cons, List.flatten_nil, data_mk,
      List.append_nil]
    rw [List.take_of_length_le
      (by simp only [List.length_drop, hld]; omega : (p.data.drop 1800).length ≤ 900)]
    rw [show (1800 : ℕ) = 900 + 900 from rfl, ← List.drop_drop, List.take_append_drop,
      List.take_append_drop]

/-- A 2500-character whitespace-free paragraph. -/
def para2500 : String := String.mk (List.replicate 2500 'a')

lemma splitParasGo_no_ws : ∀ (fuel : ℕ) (l acc : List Char), l.length ≤ fuel →
    (∀ c ∈ l, isJsWs c = false) →
    splitParasGo fuel l acc = [String.mk (acc.reverse ++ l)] := by
  intro fuel
  induction fuel with
  | zero =>
    intro l acc h _
    have hl : l = [] := List.eq_nil_of_length_eq_zero (Nat.le_zero.mp h)
    subst hl
    simp [splitParasGo]
  | succ n ih =>
    intro l acc h hws
    cases l with
    | nil => simp [splitParasGo]
    | cons c r =>
      have hc : ¬ c = '\n' := by
        intro heq
        have := hws c (by simp)
        rw [heq] at this
        simp [isJsWs] at this
      simp only [splitParasGo, if_neg hc]
      rw [ih r (c :: acc) (by simpa using h) (fun x hx => hws x (by simp [hx]))]
      simp

lemma dropWhile_all_false (pr : Char → Bool) (l : List Char)
    (h : ∀ c ∈ l, pr c = false) : l.dropWhile pr = l := by
  cases l with
  | nil => rfl
  | cons c r =>
    rw [List.dropWhile_cons, if_neg (by simp [h c (by simp)])]

lemma jsTrim_id (p : String) (hws : ∀ c ∈ p.data, isJsWs c = false) : jsTrim p = p := by
  apply String.ext
  rw [jsTrim, data_mk]
  rw [dropWhile_all_false isJsWs p.data hws]
  rw [dropWhile_all_false isJsWs p.data.reverse (fun c hc => hws c (List.mem_reverse.mp hc))]
  exact List.reverse_reverse _

/-- A whitespace-free nonempty string passes the paragraph stage unchanged. -/
lemma chunkTextParts_single (p : String) (hws : ∀ c ∈ p.data, isJsWs c = false)
    (hne : p ≠ "") : chunkTextParts p = [p] := by
  have hsp : splitParas p = [p] := by
    show splitParasGo p.data.length p.data [] = [p]
    rw [splitParasGo_no_ws p.data.length p.data [] le_rfl hws]
    rfl
  simp [chunkTextParts, hsp, jsTrim_id p hws, hne]

theorem chunkText_hard_split_witness :
    chunkTextParts para2500 = [para2500] ∧ para2500.length = 2500 ∧
    ((chunkText para2500 900).map String.length = [900, 900, 700] ∧
      String.join (chunkText para2500 900) = para2500) := by
  have hws : ∀ c ∈ para2500.data, isJsWs c = false := by
    intro c hc
    rw [List.eq_of_mem_replicate (show c ∈ List.replicate 2500 'a' from hc)]
    decide
  have hlen : para2500.length = 2500 := by
    rw [show para2500 = String.mk (List.replicate 2500 'a') from rfl, String.length_mk,
      List.length_replicate]
  have hne : para2500 ≠ "" := by
    intro h
    rw [h] at hlen
    simp at hlen
  have hp := chunkTextParts_single para2500 hws hne
  exact ⟨hp, hlen, chunkText_hard_split para2500 hp hlen⟩

lemma take_all_ws (pr : Char → Bool) : ∀ (l : List Char) (k : ℕ),
    k ≤ (l.takeWhile pr).length → ∀ c ∈ l.take k, pr c = true := by
  intro l
  induction l with
  | nil => intro k _ c hc; simp at hc
  | cons x r ih =>
    intro k hk c hc
    by_cases hx : pr x
    · rw [List.takeWhile_cons, if_pos hx] at hk
      cases k with
      | zero => simp at hc
      | succ m =>
        rw [List.take_succ_cons] at hc
        rcases List.mem_cons.mp hc with rfl | hc'
        · exact hx
        · exact ih m (by simp only [List.length_cons] at hk; omega) c hc'
    · rw [List.takeWhile_cons, if_neg hx] at hk
      simp only [List.length_nil, Nat.le_zero] at hk
      subst hk
      simp at hc

/-- A matched separator consists of whitespace only: its length never exceeds
the maximal whitespace prefix. -/
lemma sepLen_le (l : List Char) (k : ℕ) (h : sepLen l = some k) :
    k ≤ (l.takeWhile isJsWs).length := by
  simp only [sepLen] at h
  cases hf : (l.takeWhile isJsWs).reverse.findIdx? (fun c => c = '\n') with
  | none => rw [hf] at h; simp at h
  | some j =>
    rw [hf] at h
    simp only [Option.some.injEq] at h
    omega

lemma dropWhile_filter (l : List Char) :
    (l.dropWhile isJsWs).filter (fun c => !isJsWs c) = l.filter (fun c => !isJsWs c) := by
  induction l with
  | nil => rfl
  | cons c r ih =>
    by_cases h : isJsWs c
    · rw [List.dropWhile_cons, if_pos h, ih, List.filter_cons]
      simp [h]
    · rw [List.dropWhile_cons, if_neg h]

/-- Trimming only removes whitespace: the non-whitespace characters survive. -/
lemma jsTrim_filter (x : String) :
    (jsTrim x).data.filter (fun c => !isJsWs c) = x.data.filter (fun c => !isJsWs c) := by
  simp only [jsTrim, data_mk]
  rw [List.filter_reverse, dropWhile_filter, List.filter_reverse, dropWhile_filter,
    List.reverse_reverse]

lemma filter_ne_empty_flatten (xs : List String) :
    ((xs.filter (fun p => p ≠ "")).map String.data).flatten = (xs.map String.data).flatten := by
  induction xs with
  | nil => rfl
  | cons x r ih =>
    rw [List.filter_cons]
    by_cases h : x = ""
    · subst h
      rw [if_neg (by simp), ih]
      simp [data_empty]
    · rw [if_pos (by simp [h])]
      simp only [List.map_cons, List.flatten_cons]
      rw [ih]

lemma map_jsTrim_filter (xs : List String) :
    (((xs.map jsTrim).map String.data).flatten).filter (fun c => !isJsWs c)
      = ((xs.map String.data).flatten).filter (fun c => !isJsWs c) := by
  induction xs with
  | nil => rfl
  | cons x r ih =>
    simp only [List.map_cons, List.flatten_cons, List.filter_append]
    rw [ih, jsTrim_filter]

lemma flatMap_data_flatten (parts : List String) (f : String → List String)
    (hf : ∀ p ∈ parts, ((f p).map String.data).flatten = p.data) :
    ((parts.flatMap f).map String.data).flatten = (parts.map String.data).flatten := by
  induction parts with
  | nil => rfl
  | cons x r ih =>
    simp only [List.flatMap_cons, List.map_append, List.flatten_append, List.map_cons,
      List.flatten_cons]
    rw [hf x (by simp), ih (fun p hp => hf p (by simp [hp]))]

/-- The paragraph splitter only discards whitespace: filtering out whitespace,
the concatenation of the produced pieces is the filtered input. -/
lemma splitParasGo_filter : ∀ (fuel : ℕ) (l acc : List Char), l.length ≤ fuel →
    (((splitParasGo fuel l acc).map String.data).flatten).filter (fun c => !isJsWs c)
      = (acc.reverse ++ l).filter (fun c => !isJsWs c) := by
  have hnl : (!isJsWs '\n') = false := by decide
  intro fuel
  induction fuel with
  | zero =>
    intro l acc h
    have hl : l = [] := List.eq_nil_of_length_eq_zero (Nat.le_zero.mp h)
    subst hl
    simp [splitParasGo, data_mk]
  | succ n ih =>
    intro l acc h
    cases l with
    | nil => simp [splitParasGo, data_mk]
    | cons c rest =>
      by_cases hc : c = '\n'
      · subst hc
        cases hs : sepLen rest with
        | none =>
          rw [show splitParasGo (n + 1) ('\n' :: rest) acc = splitParasGo n rest ('\n' :: acc)
            from by simp [splitParasGo, hs]]
          rw [ih rest ('\n' :: acc) (by simp only [List.length_cons] at h; omega)]
          simp [List.reverse_cons, List.append_assoc, List.filter_append, List.filter_cons, hnl]
        | some k =>
          rw [show splitParasGo (n + 1) ('\n' :: rest) acc
              = String.mk acc.reverse :: splitParasGo n (rest.drop k) []
            from by simp [splitParasGo, hs]]
          simp only [List.map_cons, List.flatten_cons, List.filter_append, data_mk]
          rw [ih (rest.drop k) []
            (by simp only [List.length_drop, List.length_cons] at h ⊢; omega)]
          have htake : (rest.take k).filter (fun c => !isJsWs c) = [] := by
            rw [List.filter_eq_nil_iff]
            intro a ha
            rw [take_all_ws isJsWs rest k (sepLen_le rest k hs) a ha]
            simp
          have hrest : ('\n' :: rest).filter (fun c => !isJsWs c)
              = (rest.drop k).filter (fun c => !isJsWs c) := by
            rw [List.filter_cons, if_neg (by simp [hnl])]
            conv_lhs => rw [← List.take_append_drop k rest]
            rw [List.filter_append, htake, List.nil_append]
          simp [List.filter_append, hrest]
      · simp only [splitParasGo, if_neg hc]
        rw [ih rest (c :: acc) (by simp only [List.length_cons] at h; omega)]
        simp [List.reverse_cons, List.append_assoc]

lemma splitParas_filter (T : String) :
    (((splitParas T).map String.data).flatten).filter (fun c => !isJsWs c)
      = T.data.filter (fun c => !isJsWs c) := by
  simpa using splitParasGo_filter T.data.length T.data [] le_rfl

/-- C7, counterexample: the CSV policy does not reconstruct its input even up
to whitespace normalization — the emitted chunk carries an injected row-range
label (and repeats the header), which survives whitespace stripping. -/
theorem chunkCsv_not_reconstructed_cex :
    stripWs (String.join (chunkCsv "colA\n1\n2")) ≠ stripWs "colA\n1\n2" := by decide

/-- C7, amended: for every text split by the free-text Chunker (`chunkText`,
with any positive maximum length), concatenating the chunks in order
reconstructs the input up to whitespace normalization (dropping whitespace on
both sides yields identical strings): the split boundaries and trimming only
ever discard whitespace.  The CSV policy instead injects labels and repeats
the header, so reconstruction does not hold for it. -/
theorem chunkText_reconstructs (T : String) (maxLen : ℕ) (h : 0 < maxLen) :
    stripWs (String.join (chunkText T maxLen)) = stripWs T := by
  apply String.ext
  simp only [stripWs, data_mk]
  rw [join_data]
  have hf : ∀ p ∈ chunkTextParts T,
      (((if p.length ≤ maxLen then [p] else windows p maxLen) : List String).map
        String.data).flatten = p.data := by
    intro p _
    by_cases hl : p.length ≤ maxLen
    · simp [hl]
    · rw [if_neg hl]
      exact windows_flatten p maxLen h
  rw [show chunkText T maxLen = (chunkTextParts T).flatMap
      (fun p => if p.length ≤ maxLen then [p] else windows p maxLen) from rfl]
  rw [flatMap_data_flatten _ _ hf]
  rw [show chunkTextParts T = ((splitParas T).map jsTrim).filter (fun p => p ≠ "") from rfl]
  rw [filter_ne_empty_flatten, map_jsTrim_filter, splitParas_filter]

theorem chunkText_reconstructs_witness :
    stripWs (String.join (chunkText "hello world" 1200)) = stripWs "hello world" :=
  chunkText_reconstructs "hello world" 1200 (by decide)

end AwsBox
